import Mathlib

/-!
# Verification of the task-api HTTP service (src/index.js)

A shallow embedding of the four `/tasks` route handlers of the Express
application in `src/index.js`, together with theorems settling the claims
of the specification.

The database round trips are embedded as pure functions on an explicit
table state: each handler of `src/index.js` issues exactly one SQL
statement, whose standard PostgreSQL semantics on the `tasks` table is
spelled out here over a list of rows.
-/

namespace TaskApi

/-- A row of the `tasks` table.

Modelled from the spec: the table schema itself is not part of `src/`;
§3 of the spec gives the columns — `id` (server-generated identifier),
`title` (required string), `description` (optional string), `user_id`
(required reference), `is_completed` (boolean, default `false`). The
server-generated `id` is modelled as a serial counter held in the state. -/
structure Task where
  id : Nat
  title : String
  description : Option String
  user_id : Int
  is_completed : Bool
deriving DecidableEq, Repr

/-- The persistent state: the rows of the `tasks` table in storage order,
and the next value of the serial `id` generator. -/
structure DB where
  rows : List Task
  nextId : Nat
deriving DecidableEq, Repr

/-- The JSON body of a `POST /tasks` request, as destructured by
`const { title, description, user_id } = req.body` (line 60 of
`src/index.js`); absent fields are `none`. -/
structure PostBody where
  title : Option String
  description : Option String
  user_id : Option Int
deriving DecidableEq, Repr

/-- JavaScript truthiness of the destructured `title`: `!title` is true
when the field is absent (`undefined`) or the empty string. -/
def truthyTitle : Option String → Bool
  | none => false
  | some s => !(s == "")

/-- JavaScript truthiness of the destructured `user_id`: `!user_id` is
true when the field is absent (`undefined`) or the number `0`. -/
def truthyUserId : Option Int → Bool
  | none => false
  | some v => !(v == 0)

/-- The JSON payload a handler sends back with `res.json(...)` /
`res.send(...)`. -/
inductive Payload where
  | taskList (ts : List Task)
  | task (t : Task)
  | messageTask (msg : String) (t : Task)
  | errorMsg (msg : String)
deriving DecidableEq, Repr

/-- An HTTP response: status code plus JSON payload. -/
structure Resp where
  status : Nat
  payload : Payload
deriving DecidableEq, Repr

/-- Handler of `GET /tasks` (lines 44-55 of `src/index.js`):
`SELECT * FROM tasks` returns every row in storage order, and the handler
sends exactly `result.rows` with the default 200 status. -/
def handleGetTasks (db : DB) : Resp × DB :=
  (⟨200, .taskList db.rows⟩, db)

/-- The row inserted by
`INSERT INTO tasks (title, description, user_id) VALUES ($1, $2, $3)`:
`id` is drawn from the serial generator and `is_completed` takes the
column default `false` (spec §3). The handler only reaches the insert
when `title` and `user_id` are truthy, so the `getD` defaults are never
the stored values. -/
def insertRow (db : DB) (b : PostBody) : Task :=
  { id := db.nextId
    title := b.title.getD ""
    description := b.description
    user_id := b.user_id.getD 0
    is_completed := false }

/-- Handler of `POST /tasks` (lines 58-83 of `src/index.js`):
`if (!title || !user_id) return 400`; otherwise insert one row and
respond 201 with the row returned by `RETURNING *`. -/
def handlePostTasks (db : DB) (b : PostBody) : Resp × DB :=
  if !truthyTitle b.title || !truthyUserId b.user_id then
    (⟨400, .errorMsg "Faltan campos obligatorios"⟩, db)
  else
    let t := insertRow db b
    (⟨201, .task t⟩, { rows := db.rows ++ [t], nextId := db.nextId + 1 })

/-- The rows after `UPDATE tasks SET is_completed = $1 WHERE id = $2`:
every row whose `id` column matches gets the new flag, every other row
is untouched. -/
def updateRows (rows : List Task) (id : Nat) (b : Bool) : List Task :=
  rows.map fun r => if r.id = id then { r with is_completed := b } else r

/-- Handler of `PUT /tasks/:id` (lines 86-109 of `src/index.js`):
`UPDATE tasks SET is_completed = $1 WHERE id = $2 RETURNING *`.
Every row matching `:id` has its `is_completed` column set to the body
value; `RETURNING *` yields the affected rows, so an empty result means
no row matched and the handler responds 404, otherwise it responds with
`result.rows[0]`. -/
def handlePutTask (db : DB) (id : Nat) (is_completed : Bool) : Resp × DB :=
  match (updateRows db.rows id is_completed).filter fun r => r.id = id with
  | [] => (⟨404, .errorMsg "Tarea no encontrada"⟩, db)
  | t :: _ =>
    (⟨200, .task t⟩, { db with rows := updateRows db.rows id is_completed })

/-- Handler of `DELETE /tasks/:id` (lines 112-128 of `src/index.js`):
`DELETE FROM tasks WHERE id = $1 RETURNING *` removes every row matching
`:id`; an empty `RETURNING *` result means no row matched (404),
otherwise the handler responds with a confirmation message and
`result.rows[0]`. -/
def handleDeleteTask (db : DB) (id : Nat) : Resp × DB :=
  match db.rows.filter fun r => r.id = id with
  | [] => (⟨404, .errorMsg "Tarea no encontrada"⟩, db)
  | t :: _ =>
    (⟨200, .messageTask "Tarea eliminada correctamente" t⟩,
     { db with rows := db.rows.filter fun r => r.id ≠ id })

/-- A request of the create/delete fragment of the API, for reasoning
about request sequences. -/
inductive Op where
  | create (b : PostBody)
  | del (id : Nat)
deriving DecidableEq, Repr

/-- The table state after serving a sequence of create/delete requests. -/
def runOps (db : DB) : List Op → DB
  | [] => db
  | Op.create b :: ops => runOps (handlePostTasks db b).2 ops
  | Op.del i :: ops => runOps (handleDeleteTask db i).2 ops

/-- The empty initial table, with the serial generator at 1. -/
def emptyDB : DB := ⟨[], 1⟩

/-- The per-row invariant of spec §3: a persisted Task has a non-empty
title and a (nonzero, hence present) user_id. -/
def validRow (r : Task) : Prop := r.title ≠ "" ∧ r.user_id ≠ 0

/-- The invariant over the whole table. -/
def tableInv (db : DB) : Prop := ∀ r ∈ db.rows, validRow r

/-! ## Basic lemmas about the guard -/

/-- The destructured `title` is falsy exactly when it is absent or the
empty string. -/
theorem truthyTitle_eq_false_iff (o : Option String) :
    truthyTitle o = false ↔ o = none ∨ o = some "" := by
  cases o with
  | none => simp [truthyTitle]
  | some s => simp [truthyTitle]

/-- The destructured `user_id` is falsy exactly when it is absent or the
number 0. -/
theorem truthyUserId_eq_false_iff (o : Option Int) :
    truthyUserId o = false ↔ o = none ∨ o = some 0 := by
  cases o with
  | none => simp [truthyUserId]
  | some v => simp [truthyUserId]

/-! ## Claims about POST /tasks -/

/-- C1: for every POST /tasks request whose body carries a (truthy) title
and user_id, the handler inserts exactly one row with those fields
(description taken from the body, possibly absent) at the end of the
tasks table, and responds 201 with the inserted row, whose `id` is the
server-generated serial value. -/
theorem post_valid_creates (db : DB) (b : PostBody)
    (ht : truthyTitle b.title = true) (hu : truthyUserId b.user_id = true) :
    ∃ t : Task,
      (handlePostTasks db b).1 = ⟨201, .task t⟩ ∧
      (handlePostTasks db b).2.rows = db.rows ++ [t] ∧
      t.id = db.nextId ∧
      b.title = some t.title ∧
      t.description = b.description ∧
      b.user_id = some t.user_id ∧
      t.is_completed = false := by
  refine ⟨insertRow db b, ?_, ?_, rfl, ?_, rfl, ?_, rfl⟩
  · simp [handlePostTasks, ht, hu]
  · simp [handlePostTasks, ht, hu]
  · cases hb : b.title with
    | none => rw [hb] at ht; simp [truthyTitle] at ht
    | some s => simp [insertRow, hb]
  · cases hb : b.user_id with
    | none => rw [hb] at hu; simp [truthyUserId] at hu
    | some v => simp [insertRow, hb]

/-- Witness for C1 at a concrete valid body. -/
theorem post_valid_creates_witness :
    ∃ t : Task,
      (handlePostTasks emptyDB ⟨some "a", none, some 7⟩).1 = ⟨201, .task t⟩ ∧
      (handlePostTasks emptyDB ⟨some "a", none, some 7⟩).2.rows = emptyDB.rows ++ [t] ∧
      t.id = emptyDB.nextId ∧
      (some "a" : Option String) = some t.title ∧
      t.description = none ∧
      (some 7 : Option Int) = some t.user_id ∧
      t.is_completed = false :=
  post_valid_creates emptyDB ⟨some "a", none, some 7⟩ (by decide) (by decide)

/-- C2 counterexample: a body in which both `title` and `user_id` are
present (nothing is absent) still draws a 400, because the present title
is the empty string; so "the response is 400 exactly when a required
field is absent" fails as stated. -/
theorem post_400_despite_present_fields :
    (handlePostTasks emptyDB ⟨some "", none, some 1⟩).1.status = 400 ∧
    (some "" : Option String) ≠ none ∧ (some 1 : Option Int) ≠ none := by
  refine ⟨rfl, ?_, ?_⟩ <;> simp

/-- C2 (amended): the handler responds 400, leaving the table unchanged,
when `title` or `user_id` is absent — and more generally the response is
400 exactly when `title` or `user_id` is absent or falsy (empty-string
title, zero user_id). -/
theorem post_400_iff_missing_or_falsy (db : DB) (b : PostBody) :
    ((handlePostTasks db b).1.status = 400 ↔
      (b.title = none ∨ b.title = some "" ∨
       b.user_id = none ∨ b.user_id = some 0)) ∧
    ((b.title = none ∨ b.title = some "" ∨
      b.user_id = none ∨ b.user_id = some 0) →
      (handlePostTasks db b).2 = db) := by
  have htc := truthyTitle_eq_false_iff b.title
  have huc := truthyUserId_eq_false_iff b.user_id
  cases ht : truthyTitle b.title <;> cases hu : truthyUserId b.user_id <;>
    rw [ht] at htc <;> rw [hu] at huc <;>
    simp [handlePostTasks, ht, hu] <;> tauto

/-- Witness for C2 (amended) at a concrete body missing its title. -/
theorem post_400_iff_missing_or_falsy_witness :
    (handlePostTasks emptyDB ⟨none, none, some 1⟩).2 = emptyDB :=
  (post_400_iff_missing_or_falsy emptyDB ⟨none, none, some 1⟩).2 (Or.inl rfl)

/-- C10: POST /tasks responds 400 (and persists nothing) also when
`title` or `user_id` is present but falsy — empty-string title or zero
user_id — and consequently a POST never adds a row whose title is the
empty string or whose user_id is 0. -/
theorem post_rejects_falsy (db : DB) (b : PostBody) :
    ((b.title = some "" ∨ b.user_id = some 0) →
      (handlePostTasks db b).1.status = 400 ∧ (handlePostTasks db b).2 = db) ∧
    (∀ r ∈ (handlePostTasks db b).2.rows,
      (r.title = "" ∨ r.user_id = 0) → r ∈ db.rows) := by
  constructor
  · intro h
    have hfalsy : truthyTitle b.title = false ∨ truthyUserId b.user_id = false := by
      rcases h with h | h
      · exact Or.inl ((truthyTitle_eq_false_iff b.title).mpr (Or.inr h))
      · exact Or.inr ((truthyUserId_eq_false_iff b.user_id).mpr (Or.inr h))
    rcases hfalsy with h' | h' <;> simp [handlePostTasks, h']
  · intro r hr hbad
    cases ht : truthyTitle b.title with
    | false => simpa [handlePostTasks, ht] using hr
    | true =>
      cases hu : truthyUserId b.user_id with
      | false => simpa [handlePostTasks, ht, hu] using hr
      | true =>
        simp [handlePostTasks, ht, hu] at hr
        rcases hr with hr | hr
        · exact hr
        · exfalso
          subst hr
          rcases hbad with hbad | hbad
          · rcases hb : b.title with _ | s
            · rw [hb] at ht; simp [truthyTitle] at ht
            · rw [hb] at ht
              simp [insertRow, hb] at hbad
              simp [truthyTitle, hbad] at ht
          · rcases hb : b.user_id with _ | v
            · rw [hb] at hu; simp [truthyUserId] at hu
            · rw [hb] at hu
              simp [insertRow, hb] at hbad
              simp [truthyUserId, hbad] at hu

/-- Witness for C10 at a concrete body with a zero user_id. -/
theorem post_rejects_falsy_witness :
    (handlePostTasks emptyDB ⟨some "a", none, some 0⟩).1.status = 400 ∧
    (handlePostTasks emptyDB ⟨some "a", none, some 0⟩).2 = emptyDB :=
  (post_rejects_falsy emptyDB ⟨some "a", none, some 0⟩).1 (Or.inr rfl)

/-! ## Lemmas about PUT /tasks/:id and DELETE /tasks/:id -/

/-- When some row matches, the `RETURNING *` result of the UPDATE is
nonempty. -/
theorem filter_updateRows_ne_nil {rows : List Task} {id : Nat} (b : Bool)
    (h : ∃ r ∈ rows, r.id = id) :
    (updateRows rows id b).filter (fun r => r.id = id) ≠ [] := by
  rcases h with ⟨r, hr, hid⟩
  have hmem : ({ r with is_completed := b } : Task) ∈ updateRows rows id b :=
    List.mem_map.mpr ⟨r, hr, by simp [hid]⟩
  have : ({ r with is_completed := b } : Task) ∈
      (updateRows rows id b).filter (fun r => r.id = id) :=
    List.mem_filter.mpr ⟨hmem, by simpa using hid⟩
  exact List.ne_nil_of_mem this

/-- Every element of the `RETURNING *` result of the UPDATE has the
matched id and the new flag. -/
theorem mem_filter_updateRows {rows : List Task} {id : Nat} {b : Bool} {t : Task}
    (ht : t ∈ (updateRows rows id b).filter (fun r => r.id = id)) :
    t.id = id ∧ t.is_completed = b := by
  obtain ⟨hmem, hid⟩ := List.mem_filter.mp ht
  have hid' : t.id = id := by simpa using hid
  refine ⟨hid', ?_⟩
  obtain ⟨r, _, hr⟩ := List.mem_map.mp hmem
  by_cases hcase : r.id = id
  · rw [if_pos hcase] at hr
    rw [← hr]
  · rw [if_neg hcase] at hr
    subst hr
    exact absurd hid' hcase

/-- The UPDATE matched some row exactly when a row with that id exists;
on a successful PUT the handler responds 200 with one of the returned
rows and stores the updated table. -/
theorem handlePutTask_found (db : DB) (id : Nat) (b : Bool)
    (h : ∃ r ∈ db.rows, r.id = id) :
    ∃ t, handlePutTask db id b =
        (⟨200, .task t⟩, { db with rows := updateRows db.rows id b }) ∧
      t.id = id ∧ t.is_completed = b := by
  obtain ⟨t, rest, heq⟩ :=
    List.exists_cons_of_ne_nil (filter_updateRows_ne_nil b h)
  have hmem : t ∈ (updateRows db.rows id b).filter (fun r => r.id = id) := by
    rw [heq]; exact List.mem_cons_self t rest
  obtain ⟨hid, hflag⟩ := mem_filter_updateRows hmem
  exact ⟨t, by simp [handlePutTask, heq], hid, hflag⟩

/-- When no row matches, the UPDATE returns nothing and the handler
responds 404 with the state untouched. -/
theorem handlePutTask_notFound (db : DB) (id : Nat) (b : Bool)
    (h : ∀ r ∈ db.rows, r.id ≠ id) :
    handlePutTask db id b = (⟨404, .errorMsg "Tarea no encontrada"⟩, db) := by
  have hnil : (updateRows db.rows id b).filter (fun r => r.id = id) = [] := by
    rw [List.filter_eq_nil_iff]
    intro t hmem
    obtain ⟨r, hr, hrt⟩ := List.mem_map.mp hmem
    have : t.id ≠ id := by
      by_cases hcase : r.id = id
      · exact absurd hcase (h r hr)
      · rw [if_neg hcase] at hrt; subst hrt; exact hcase
    simpa using this
  simp [handlePutTask, hnil]

/-- When no row matches, the DELETE returns nothing and the handler
responds 404 with the state untouched. -/
theorem handleDeleteTask_notFound (db : DB) (id : Nat)
    (h : ∀ r ∈ db.rows, r.id ≠ id) :
    handleDeleteTask db id = (⟨404, .errorMsg "Tarea no encontrada"⟩, db) := by
  have hnil : db.rows.filter (fun r => r.id = id) = [] := by
    rw [List.filter_eq_nil_iff]
    intro t hmem
    simpa using h t hmem
  simp [handleDeleteTask, hnil]

/-- On a successful DELETE the handler responds 200 with the message and
one deleted row, and stores the table purged of the matching id. -/
theorem handleDeleteTask_found (db : DB) (id : Nat)
    (h : ∃ r ∈ db.rows, r.id = id) :
    ∃ t, handleDeleteTask db id =
        (⟨200, .messageTask "Tarea eliminada correctamente" t⟩,
         { db with rows := db.rows.filter fun r => r.id ≠ id }) ∧
      t ∈ db.rows ∧ t.id = id := by
  rcases h with ⟨r, hr, hid⟩
  have hne : db.rows.filter (fun r => r.id = id) ≠ [] :=
    List.ne_nil_of_mem (List.mem_filter.mpr ⟨hr, by simpa using hid⟩)
  obtain ⟨t, rest, heq⟩ := List.exists_cons_of_ne_nil hne
  have hmem : t ∈ db.rows.filter (fun r => r.id = id) := by
    rw [heq]; exact List.mem_cons_self t rest
  obtain ⟨htr, htid⟩ := List.mem_filter.mp hmem
  exact ⟨t, by simp [handleDeleteTask, heq], htr, by simpa using htid⟩

/-! ## Claims about PUT /tasks/:id -/

/-- C3: for every PUT /tasks/:id request where some row matches `:id`,
the handler sets the matching row's `is_completed` to the value supplied
in the request body — afterwards every row with that id carries the
supplied flag — and responds 200 with the updated row. -/
theorem put_sets_is_completed (db : DB) (id : Nat) (b : Bool)
    (h : ∃ r ∈ db.rows, r.id = id) :
    ∃ t, (handlePutTask db id b).1 = ⟨200, .task t⟩ ∧
      t.id = id ∧ t.is_completed = b ∧
      t ∈ (handlePutTask db id b).2.rows ∧
      ∀ r ∈ (handlePutTask db id b).2.rows, r.id = id → r.is_completed = b := by
  obtain ⟨t, heq, hid, hflag⟩ := handlePutTask_found db id b h
  refine ⟨t, by rw [heq], hid, hflag, ?_, ?_⟩
  · rw [heq]
    have hne := @filter_updateRows_ne_nil db.rows id b h
    obtain ⟨t', rest, hcons⟩ := List.exists_cons_of_ne_nil hne
    have ht' : t ∈ (updateRows db.rows id b).filter (fun r => r.id = id) := by
      have : handlePutTask db id b =
          (⟨200, .task t'⟩, { db with rows := updateRows db.rows id b }) := by
        simp [handlePutTask, hcons]
      rw [this] at heq
      have : t' = t := by
        have h2 := congrArg (fun p => p.1.payload) heq
        simpa using h2
      rw [hcons, this]
      exact List.mem_cons_self _ _
    exact List.mem_of_mem_filter ht'
  · intro r hr hrid
    rw [heq] at hr
    have hr' : r ∈ updateRows db.rows id b := hr
    obtain ⟨s, hs, hsr⟩ := List.mem_map.mp hr'
    by_cases hcase : s.id = id
    · rw [if_pos hcase] at hsr; rw [← hsr]
    · rw [if_neg hcase] at hsr; subst hsr; exact absurd hrid hcase

/-- Witness for C3 on a one-row table. -/
theorem put_sets_is_completed_witness :
    ∃ t, (handlePutTask ⟨[⟨1, "a", none, 5, false⟩], 2⟩ 1 true).1 = ⟨200, .task t⟩ ∧
      t.id = 1 ∧ t.is_completed = true ∧
      t ∈ (handlePutTask ⟨[⟨1, "a", none, 5, false⟩], 2⟩ 1 true).2.rows ∧
      ∀ r ∈ (handlePutTask ⟨[⟨1, "a", none, 5, false⟩], 2⟩ 1 true).2.rows,
        r.id = 1 → r.is_completed = true :=
  put_sets_is_completed ⟨[⟨1, "a", none, 5, false⟩], 2⟩ 1 true
    ⟨⟨1, "a", none, 5, false⟩, by simp, rfl⟩

/-- C4 counterexample: a PUT whose body repeats the row's current flag
leaves `is_completed` at that value — the update does not toggle. The
row starts completed, the body supplies `true`, and the stored row is
still completed, not the negation of its previous value. -/
theorem put_does_not_toggle :
    (handlePutTask ⟨[⟨1, "a", none, 1, true⟩], 2⟩ 1 true).2.rows.map
        Task.is_completed = [true] ∧
    List.map Task.is_completed [(⟨1, "a", none, 1, true⟩ : Task)] = [true] ∧
    (true : Bool) ≠ !true := by
  refine ⟨?_, rfl, by decide⟩
  rfl

/-- C4 (amended): for every PUT /tasks/:id request where some row matches
`:id`, the resulting `is_completed` of the returned row is the value
supplied in the body — so it is the negation of the previous value
exactly when the client supplies that negation — and the response
carries the updated row. -/
theorem put_flag_is_body_value (db : DB) (id : Nat) (b : Bool) (r : Task)
    (hr : r ∈ db.rows) (hid : r.id = id) :
    ∃ t, (handlePutTask db id b).1 = ⟨200, .task t⟩ ∧
      t.id = id ∧ t.is_completed = b ∧
      (t.is_completed = !r.is_completed ↔ b = !r.is_completed) := by
  obtain ⟨t, heq, htid, hflag⟩ := handlePutTask_found db id b ⟨r, hr, hid⟩
  exact ⟨t, by rw [heq], htid, hflag, by rw [hflag]⟩

/-- Witness for C4 (amended): the body supplies the negation, so the flag
flips. -/
theorem put_flag_is_body_value_witness :
    ∃ t, (handlePutTask ⟨[⟨1, "a", none, 5, false⟩], 2⟩ 1 true).1 = ⟨200, .task t⟩ ∧
      t.id = 1 ∧ t.is_completed = true ∧
      (t.is_completed = !(false : Bool) ↔ (true : Bool) = !(false : Bool)) :=
  put_flag_is_body_value ⟨[⟨1, "a", none, 5, false⟩], 2⟩ 1 true
    ⟨1, "a", none, 5, false⟩ (by simp) rfl

/-- C5: for every PUT /tasks/:id or DELETE /tasks/:id request where no
row matches `:id`, the handler responds 404 and the table state is left
exactly as it was. -/
theorem missing_id_404_state_unchanged (db : DB) (id : Nat) (b : Bool)
    (h : ∀ r ∈ db.rows, r.id ≠ id) :
    handlePutTask db id b = (⟨404, .errorMsg "Tarea no encontrada"⟩, db) ∧
    handleDeleteTask db id = (⟨404, .errorMsg "Tarea no encontrada"⟩, db) :=
  ⟨handlePutTask_notFound db id b h, handleDeleteTask_notFound db id h⟩

/-- Witness for C5 on a table whose only row has a different id. -/
theorem missing_id_404_state_unchanged_witness :
    handlePutTask ⟨[⟨1, "a", none, 5, false⟩], 2⟩ 9 true =
      (⟨404, .errorMsg "Tarea no encontrada"⟩, ⟨[⟨1, "a", none, 5, false⟩], 2⟩) ∧
    handleDeleteTask ⟨[⟨1, "a", none, 5, false⟩], 2⟩ 9 =
      (⟨404, .errorMsg "Tarea no encontrada"⟩, ⟨[⟨1, "a", none, 5, false⟩], 2⟩) :=
  missing_id_404_state_unchanged ⟨[⟨1, "a", none, 5, false⟩], 2⟩ 9 true
    (by intro r hr; simp at hr; subst hr; decide)

/-- C9: a successful PUT changes nothing but the `is_completed` field of
the rows matching `:id` — the table keeps its length and order, every
row keeps its `id`, `title`, `description` and `user_id`, and every row
not matching `:id` is entirely unchanged; the id generator is untouched. -/
theorem put_frame (db : DB) (id : Nat) (b : Bool)
    (h : ∃ r ∈ db.rows, r.id = id) :
    (handlePutTask db id b).1.status = 200 ∧
    (handlePutTask db id b).2.nextId = db.nextId ∧
    List.Forall₂ (fun old new =>
        new.id = old.id ∧ new.title = old.title ∧
        new.description = old.description ∧ new.user_id = old.user_id ∧
        (old.id ≠ id → new = old))
      db.rows (handlePutTask db id b).2.rows := by
  obtain ⟨t, heq, -, -⟩ := handlePutTask_found db id b h
  rw [heq]
  refine ⟨rfl, rfl, ?_⟩
  have : ∀ r ∈ db.rows,
      (fun old new =>
        new.id = old.id ∧ new.title = old.title ∧
        new.description = old.description ∧ new.user_id = old.user_id ∧
        (old.id ≠ id → new = old)) r
        (if r.id = id then { r with is_completed := b } else r) := by
    intro r _
    by_cases hcase : r.id = id
    · rw [if_pos hcase]
      exact ⟨rfl, rfl, rfl, rfl, fun hne => absurd hcase hne⟩
    · rw [if_neg hcase]
      exact ⟨rfl, rfl, rfl, rfl, fun _ => rfl⟩
  simpa [updateRows, List.forall₂_map_right_iff, List.forall₂_same] using this

/-- Witness for C9 on a two-row table. -/
theorem put_frame_witness :
    (handlePutTask ⟨[⟨1, "a", none, 5, false⟩, ⟨2, "b", some "d", 6, true⟩], 3⟩
        2 false).1.status = 200 ∧
    (handlePutTask ⟨[⟨1, "a", none, 5, false⟩, ⟨2, "b", some "d", 6, true⟩], 3⟩
        2 false).2.nextId = 3 ∧
    List.Forall₂ (fun old new =>
        new.id = old.id ∧ new.title = old.title ∧
        new.description = old.description ∧ new.user_id = old.user_id ∧
        (old.id ≠ 2 → new = old))
      [⟨1, "a", none, 5, false⟩, ⟨2, "b", some "d", 6, true⟩]
      (handlePutTask ⟨[⟨1, "a", none, 5, false⟩, ⟨2, "b", some "d", 6, true⟩], 3⟩
        2 false).2.rows :=
  put_frame ⟨[⟨1, "a", none, 5, false⟩, ⟨2, "b", some "d", 6, true⟩], 3⟩ 2 false
    ⟨⟨2, "b", some "d", 6, true⟩, by simp, rfl⟩

/-! ## Claims about DELETE /tasks/:id -/

/-- Rows matching and not matching an id split the table's length. -/
theorem length_filter_id_split (l : List Task) (id : Nat) :
    (l.filter fun r => r.id ≠ id).length + (l.filter fun r => r.id = id).length
      = l.length := by
  induction l with
  | nil => rfl
  | cons r l ih =>
    by_cases hcase : r.id = id
    · rw [List.filter_cons_of_neg (by simp [hcase]),
        List.filter_cons_of_pos (by simp [hcase])]
      simp only [List.length_cons]
      omega
    · rw [List.filter_cons_of_pos (by simp [hcase]),
        List.filter_cons_of_neg (by simp [hcase])]
      simp only [List.length_cons]
      omega

/-- Under distinct ids, exactly one row matches a present id. -/
theorem filter_id_length_one (l : List Task) (id : Nat)
    (hnd : (l.map Task.id).Nodup) (h : ∃ r ∈ l, r.id = id) :
    (l.filter fun r => r.id = id).length = 1 := by
  induction l with
  | nil => rcases h with ⟨r, hr, -⟩; simp at hr
  | cons r l ih =>
    rw [List.map_cons, List.nodup_cons] at hnd
    obtain ⟨hnotin, hnd'⟩ := hnd
    by_cases hcase : r.id = id
    · have hnil : l.filter (fun r => r.id = id) = [] := by
        rw [List.filter_eq_nil_iff]
        intro x hx
        simp only [decide_eq_true_eq]
        intro hxid
        exact hnotin (by rw [hcase, ← hxid]; exact List.mem_map_of_mem Task.id hx)
      rw [List.filter_cons_of_pos (by simp [hcase]), hnil]
      rfl
    · rcases h with ⟨s, hs, hsid⟩
      rcases List.mem_cons.mp hs with rfl | hs'
      · exact absurd hsid hcase
      · rw [List.filter_cons_of_neg (by simp [hcase])]
        exact ih hnd' ⟨s, hs', hsid⟩

/-- C6: for every DELETE /tasks/:id request where some row matches `:id`,
the handler removes the matching row — every other row survives, and
under the distinct-ids discipline of the serial generator exactly one
row disappears — responds with the confirmation message together with
the deleted row, and a subsequent GET /tasks no longer lists that id. -/
theorem delete_removes_exactly (db : DB) (id : Nat)
    (h : ∃ r ∈ db.rows, r.id = id) :
    ∃ t, (handleDeleteTask db id).1 =
        ⟨200, .messageTask "Tarea eliminada correctamente" t⟩ ∧
      t ∈ db.rows ∧ t.id = id ∧
      (handleDeleteTask db id).2.rows = db.rows.filter (fun r => r.id ≠ id) ∧
      (∀ r ∈ db.rows, r.id ≠ id → r ∈ (handleDeleteTask db id).2.rows) ∧
      (handleGetTasks (handleDeleteTask db id).2).1 =
        ⟨200, .taskList ((handleDeleteTask db id).2.rows)⟩ ∧
      (∀ r ∈ (handleDeleteTask db id).2.rows, r.id ≠ id) ∧
      ((db.rows.map Task.id).Nodup →
        (handleDeleteTask db id).2.rows.length + 1 = db.rows.length) := by
  obtain ⟨t, heq, htr, htid⟩ := handleDeleteTask_found db id h
  rw [heq]
  refine ⟨t, rfl, htr, htid, rfl, ?_, rfl, ?_, ?_⟩
  · intro r hr hne
    exact List.mem_filter.mpr ⟨hr, by simpa using hne⟩
  · intro r hr
    have := (List.mem_filter.mp hr).2
    simpa using this
  · intro hnd
    have hsplit := length_filter_id_split db.rows id
    have hone := filter_id_length_one db.rows id hnd h
    dsimp only
    omega

/-- Witness for C6 on a one-row table. -/
theorem delete_removes_exactly_witness :
    ∃ t, (handleDeleteTask ⟨[⟨1, "a", none, 5, false⟩], 2⟩ 1).1 =
        ⟨200, .messageTask "Tarea eliminada correctamente" t⟩ ∧
      t ∈ (⟨[⟨1, "a", none, 5, false⟩], 2⟩ : DB).rows ∧ t.id = 1 ∧
      (handleDeleteTask ⟨[⟨1, "a", none, 5, false⟩], 2⟩ 1).2.rows =
        (⟨[⟨1, "a", none, 5, false⟩], 2⟩ : DB).rows.filter (fun r => r.id ≠ 1) ∧
      (∀ r ∈ (⟨[⟨1, "a", none, 5, false⟩], 2⟩ : DB).rows, r.id ≠ 1 →
        r ∈ (handleDeleteTask ⟨[⟨1, "a", none, 5, false⟩], 2⟩ 1).2.rows) ∧
      (handleGetTasks (handleDeleteTask ⟨[⟨1, "a", none, 5, false⟩], 2⟩ 1).2).1 =
        ⟨200, .taskList ((handleDeleteTask ⟨[⟨1, "a", none, 5, false⟩], 2⟩ 1).2.rows)⟩ ∧
      (∀ r ∈ (handleDeleteTask ⟨[⟨1, "a", none, 5, false⟩], 2⟩ 1).2.rows, r.id ≠ 1) ∧
      (((⟨[⟨1, "a", none, 5, false⟩], 2⟩ : DB).rows.map Task.id).Nodup →
        (handleDeleteTask ⟨[⟨1, "a", none, 5, false⟩], 2⟩ 1).2.rows.length + 1 =
          (⟨[⟨1, "a", none, 5, false⟩], 2⟩ : DB).rows.length) :=
  delete_removes_exactly ⟨[⟨1, "a", none, 5, false⟩], 2⟩ 1
    ⟨⟨1, "a", none, 5, false⟩, by simp, rfl⟩

/-! ## The data-model invariant (spec §3) -/

/-- A truthy title destructures to a non-empty string. -/
theorem truthy_getD_title {o : Option String} (h : truthyTitle o = true) :
    o.getD "" ≠ "" := by
  cases o with
  | none => simp [truthyTitle] at h
  | some s =>
    simp only [truthyTitle, Bool.not_eq_true', beq_eq_false_iff_ne, ne_eq] at h
    simpa using h

/-- A truthy user_id destructures to a nonzero number. -/
theorem truthy_getD_userId {o : Option Int} (h : truthyUserId o = true) :
    o.getD 0 ≠ 0 := by
  cases o with
  | none => simp [truthyUserId] at h
  | some v =>
    simp only [truthyUserId, Bool.not_eq_true', beq_eq_false_iff_ne, ne_eq] at h
    simpa using h

/-- C8: every row ever present in the tasks table has a non-empty title
and a user_id — the POST guard admits only truthy title and user_id, PUT
modifies only `is_completed`, and DELETE only removes rows, so each of
the four handlers preserves the invariant from any state satisfying it. -/
theorem handlers_preserve_invariant (db : DB) (b : PostBody) (id : Nat)
    (c : Bool) (h : tableInv db) :
    tableInv (handleGetTasks db).2 ∧
    tableInv (handlePostTasks db b).2 ∧
    tableInv (handlePutTask db id c).2 ∧
    tableInv (handleDeleteTask db id).2 := by
  refine ⟨h, ?_, ?_, ?_⟩
  · cases ht : truthyTitle b.title with
    | false =>
      have hst : (handlePostTasks db b).2 = db := by simp [handlePostTasks, ht]
      rw [hst]; exact h
    | true =>
      cases hu : truthyUserId b.user_id with
      | false =>
        have hst : (handlePostTasks db b).2 = db := by
          simp [handlePostTasks, ht, hu]
        rw [hst]; exact h
      | true =>
        intro r hr
        have hrows : (handlePostTasks db b).2.rows =
            db.rows ++ [insertRow db b] := by
          simp [handlePostTasks, ht, hu]
        rw [hrows] at hr
        rcases List.mem_append.mp hr with hr' | hr'
        · exact h r hr'
        · have hre : r = insertRow db b := by simpa using hr'
          subst hre
          exact ⟨truthy_getD_title ht, truthy_getD_userId hu⟩
  · cases hf : (updateRows db.rows id c).filter fun r => r.id = id with
    | nil =>
      have hst : (handlePutTask db id c).2 = db := by simp [handlePutTask, hf]
      rw [hst]; exact h
    | cons t rest =>
      intro r hr
      have hrows : (handlePutTask db id c).2.rows = updateRows db.rows id c := by
        simp [handlePutTask, hf]
      rw [hrows] at hr
      obtain ⟨s, hs, hsr⟩ := List.mem_map.mp hr
      have hv := h s hs
      by_cases hcase : s.id = id
      · rw [if_pos hcase] at hsr; rw [← hsr]; exact ⟨hv.1, hv.2⟩
      · rw [if_neg hcase] at hsr; rw [← hsr]; exact hv
  · cases hf : db.rows.filter fun r => r.id = id with
    | nil =>
      have hst : (handleDeleteTask db id).2 = db := by
        simp [handleDeleteTask, hf]
      rw [hst]; exact h
    | cons t rest =>
      intro r hr
      have hrows : (handleDeleteTask db id).2.rows =
          db.rows.filter fun r => r.id ≠ id := by
        simp [handleDeleteTask, hf]
      rw [hrows] at hr
      exact h r (List.mem_of_mem_filter hr)

/-- Witness for C8 from the empty table. -/
theorem handlers_preserve_invariant_witness :
    tableInv (handleGetTasks emptyDB).2 ∧
    tableInv (handlePostTasks emptyDB ⟨some "a", none, some 1⟩).2 ∧
    tableInv (handlePutTask emptyDB 1 true).2 ∧
    tableInv (handleDeleteTask emptyDB 1).2 :=
  handlers_preserve_invariant emptyDB ⟨some "a", none, some 1⟩ 1 true
    (by intro r hr; simp [emptyDB] at hr)

/-! ## Claims about GET /tasks and request sequences -/

/-- A failed POST leaves the state untouched. -/
theorem handlePostTasks_state_fail (db : DB) (b : PostBody)
    (h : ¬(truthyTitle b.title = true ∧ truthyUserId b.user_id = true)) :
    (handlePostTasks db b).2 = db := by
  cases ht : truthyTitle b.title with
  | false => simp [handlePostTasks, ht]
  | true =>
    cases hu : truthyUserId b.user_id with
    | false => simp [handlePostTasks, ht, hu]
    | true => exact absurd ⟨ht, hu⟩ h

/-- A successful POST appends the inserted row and bumps the serial. -/
theorem handlePostTasks_state_ok (db : DB) (b : PostBody)
    (ht : truthyTitle b.title = true) (hu : truthyUserId b.user_id = true) :
    (handlePostTasks db b).2 =
      ⟨db.rows ++ [insertRow db b], db.nextId + 1⟩ := by
  simp [handlePostTasks, ht, hu]

/-- A DELETE always leaves the table purged of the id — whether or not
the id was present (when absent, the purge is the identity). -/
theorem handleDeleteTask_state (db : DB) (id : Nat) :
    (handleDeleteTask db id).2 =
      { db with rows := db.rows.filter fun r => r.id ≠ id } := by
  cases hf : db.rows.filter fun r => r.id = id with
  | nil =>
    have hall : ∀ r ∈ db.rows, ¬ r.id = id := by
      intro r hr
      simpa using List.filter_eq_nil_iff.mp hf r hr
    have hself : db.rows.filter (fun r => r.id ≠ id) = db.rows :=
      List.filter_eq_self.mpr (by intro r hr; simpa using hall r hr)
    have h404 : handleDeleteTask db id =
        (⟨404, .errorMsg "Tarea no encontrada"⟩, db) := by
      simp [handleDeleteTask, hf]
    rw [h404, hself]
  | cons t rest => simp [handleDeleteTask, hf]

/-- Membership after a run of create/delete requests, from any start
state: a row is listed afterwards exactly when it was there at the start
and never deleted, or was inserted by a successful create and not
deleted afterwards. -/
theorem mem_runOps_iff (ops : List Op) (db : DB) (r : Task) :
    r ∈ (runOps db ops).rows ↔
      (r ∈ db.rows ∧ Op.del r.id ∉ ops) ∨
      ∃ pre b post, ops = pre ++ Op.create b :: post ∧
        truthyTitle b.title = true ∧ truthyUserId b.user_id = true ∧
        r = insertRow (runOps db pre) b ∧
        Op.del r.id ∉ post := by
  induction ops generalizing db with
  | nil =>
    constructor
    · intro hr
      exact Or.inl ⟨hr, by simp⟩
    · rintro (⟨hr, -⟩ | ⟨pre, b, post, hops, -⟩)
      · exact hr
      · exact absurd hops.symm
          (List.append_ne_nil_of_right_ne_nil pre (List.cons_ne_nil _ _))
  | cons op ops ih =>
    cases op with
    | create b' =>
      by_cases hg : truthyTitle b'.title = true ∧ truthyUserId b'.user_id = true
      · obtain ⟨ht, hu⟩ := hg
        have hpost := handlePostTasks_state_ok db b' ht hu
        have hpre : ∀ pre : List Op, runOps db (Op.create b' :: pre) =
            runOps (⟨db.rows ++ [insertRow db b'], db.nextId + 1⟩ : DB) pre := by
          intro pre
          show runOps (handlePostTasks db b').2 pre = _
          rw [hpost]
        rw [show runOps db (Op.create b' :: ops) =
              runOps (handlePostTasks db b').2 ops from rfl, hpost, ih]
        constructor
        · rintro (⟨hr, hnd⟩ | ⟨pre, b, post, hops, hbt, hbu, hre, hnp⟩)
          · rcases List.mem_append.mp hr with hr' | hr'
            · exact Or.inl ⟨hr', by simp [hnd]⟩
            · have hre : r = insertRow db b' := by simpa using hr'
              exact Or.inr ⟨[], b', ops, rfl, ht, hu, hre, hnd⟩
          · refine Or.inr ⟨Op.create b' :: pre, b, post,
              by rw [hops, List.cons_append], hbt, hbu, ?_, hnp⟩
            rw [hpre pre]
            exact hre
        · rintro (⟨hr, hnd⟩ | ⟨pre, b, post, hops, hbt, hbu, hre, hnp⟩)
          · exact Or.inl ⟨List.mem_append.mpr (Or.inl hr),
              fun hm => hnd (List.mem_cons_of_mem _ hm)⟩
          · cases pre with
            | nil =>
              simp only [List.nil_append] at hops
              injection hops with h1 h2
              injection h1 with h3
              subst h3
              subst h2
              have hre' : r = insertRow db b' := hre
              exact Or.inl ⟨List.mem_append.mpr (Or.inr (by simp [hre'])), hnp⟩
            | cons op0 pre' =>
              rw [List.cons_append] at hops
              injection hops with h1 h2
              subst h1
              rw [hpre pre'] at hre
              exact Or.inr ⟨pre', b, post, h2, hbt, hbu, hre, hnp⟩
      · have hpost := handlePostTasks_state_fail db b' hg
        have hpre : ∀ pre : List Op,
            runOps db (Op.create b' :: pre) = runOps db pre := by
          intro pre
          show runOps (handlePostTasks db b').2 pre = _
          rw [hpost]
        rw [show runOps db (Op.create b' :: ops) =
              runOps (handlePostTasks db b').2 ops from rfl, hpost, ih]
        constructor
        · rintro (⟨hr, hnd⟩ | ⟨pre, b, post, hops, hbt, hbu, hre, hnp⟩)
          · exact Or.inl ⟨hr, by simp [hnd]⟩
          · refine Or.inr ⟨Op.create b' :: pre, b, post,
              by rw [hops, List.cons_append], hbt, hbu, ?_, hnp⟩
            rw [hpre pre]
            exact hre
        · rintro (⟨hr, hnd⟩ | ⟨pre, b, post, hops, hbt, hbu, hre, hnp⟩)
          · exact Or.inl ⟨hr, fun hm => hnd (List.mem_cons_of_mem _ hm)⟩
          · cases pre with
            | nil =>
              simp only [List.nil_append] at hops
              injection hops with h1 h2
              injection h1 with h3
              subst h3
              exact absurd ⟨hbt, hbu⟩ hg
            | cons op0 pre' =>
              rw [List.cons_append] at hops
              injection hops with h1 h2
              subst h1
              rw [hpre pre'] at hre
              exact Or.inr ⟨pre', b, post, h2, hbt, hbu, hre, hnp⟩
    | del i =>
      have hstate := handleDeleteTask_state db i
      have hpre : ∀ pre : List Op, runOps db (Op.del i :: pre) =
          runOps ({ db with rows := db.rows.filter fun r => r.id ≠ i } : DB) pre := by
        intro pre
        show runOps (handleDeleteTask db i).2 pre = _
        rw [hstate]
      rw [show runOps db (Op.del i :: ops) =
            runOps (handleDeleteTask db i).2 ops from rfl, hstate, ih]
      constructor
      · rintro (⟨hr, hnd⟩ | ⟨pre, b, post, hops, hbt, hbu, hre, hnp⟩)
        · obtain ⟨hr', hne⟩ := List.mem_filter.mp hr
          have hne' : r.id ≠ i := by simpa using hne
          refine Or.inl ⟨hr', fun hm => ?_⟩
          rcases List.mem_cons.mp hm with heq | hm'
          · exact hne' (by injection heq)
          · exact hnd hm'
        · refine Or.inr ⟨Op.del i :: pre, b, post,
            by rw [hops, List.cons_append], hbt, hbu, ?_, hnp⟩
          rw [hpre pre]
          exact hre
      · rintro (⟨hr, hnd⟩ | ⟨pre, b, post, hops, hbt, hbu, hre, hnp⟩)
        · have hne : r.id ≠ i := by
            intro he
            exact hnd (by rw [he]; exact List.mem_cons_self _ _)
          refine Or.inl ⟨List.mem_filter.mpr ⟨hr, by simpa using hne⟩,
            fun hm => hnd (List.mem_cons_of_mem _ hm)⟩
        · cases pre with
          | nil =>
            simp only [List.nil_append] at hops
            injection hops with h1 h2
            exact Op.noConfusion h1
          | cons op0 pre' =>
            rw [List.cons_append] at hops
            injection hops with h1 h2
            subst h1
            rw [hpre pre'] at hre
            exact Or.inr ⟨pre', b, post, h2, hbt, hbu, hre, hnp⟩

/-- C7: GET /tasks responds with exactly the rows of the table,
unfiltered and in storage order; consequently, after any sequence of
create and delete requests served from the empty table, a task is listed
exactly when it was inserted by a successful create and no delete of its
id followed. -/
theorem get_lists_created_not_deleted :
    (∀ db : DB, handleGetTasks db = (⟨200, .taskList db.rows⟩, db)) ∧
    (∀ (ops : List Op) (r : Task),
      r ∈ (runOps emptyDB ops).rows ↔
        ∃ pre b post, ops = pre ++ Op.create b :: post ∧
          truthyTitle b.title = true ∧ truthyUserId b.user_id = true ∧
          r = insertRow (runOps emptyDB pre) b ∧
          Op.del r.id ∉ post) := by
  refine ⟨fun db => rfl, fun ops r => ?_⟩
  rw [mem_runOps_iff]
  constructor
  · rintro (⟨hr, -⟩ | hex)
    · simp [emptyDB] at hr
    · exact hex
  · exact fun hex => Or.inr hex

end TaskApi
